import Mathlib

/-!
# BlueBuzzah firmware core: verification of spec claims

Shallow embedding of the firmware core of the BlueBuzzah bilateral haptic
therapy appliance (Python/CircuitPython source) together with proofs that
settle the frozen specification claims.

Embedded components:
* `BLE.receive` byte framing (src/src/ble.py, lines 362-436): EOT-terminated
  message accumulation with a 512-byte cap and a FIFO of completed frames.
* `SyncStats` (src/src/sync_stats.py): parallel ring buffers and the
  percentile report.
* The SYNC wire codec: `send_sync_command` encoding (src/src/app.py,
  lines 391-405) and the parsing half of `_handle_sync_command`
  (src/src/app.py, lines 1177-1212).
* The SECONDARY SYNC dispatcher `_handle_sync_command` (src/src/app.py,
  lines 1214-1347), modelled as a state transformer emitting an effect trace.
* The SECONDARY heartbeat-timeout recovery path (src/src/app.py,
  lines 1374-1457), modelled as an event trace.
* The PRIMARY boot sequence polling loop (src/src/app.py, lines 662-743).

Machine strings are modelled as `List Char`, byte buffers as `List Nat`,
microsecond/millisecond quantities as `Int`.  Wall-clock readings that only
feed log output or telemetry payloads are abstracted where noted.
-/

set_option maxHeartbeats 1000000
set_option maxRecDepth 8000

namespace BlueBuzzah

/-! ## BLE receive framing (src/src/ble.py) -/

namespace BLE

/-- The EOT frame terminator byte (0x04). -/
def EOT : Nat := 4

/-- Capacity of the pre-allocated message accumulation buffer
(`bytearray(512)` in `BLEConnection.__init__`, src/src/ble.py line 35). -/
def msgCap : Nat := 512

/-- Receive-side framing state of one connection: the partial-message
accumulator (`_msg_buffer[:_msg_len]`) and the FIFO of completed frames
(`_pending_messages`).  Queued payloads are kept as byte lists; the UTF-8
decode applied by the source when queuing is not modelled. -/
structure RxState where
  acc : List Nat
  pending : List (List Nat)
  deriving Repr, DecidableEq

/-- Fresh connection state: empty accumulator, empty FIFO. -/
def rxInit : RxState := ⟨[], []⟩

/-- Processing of a single received byte, from the inner `for` loop of
`BLE.receive` (src/src/ble.py lines 403-419): an EOT byte completes the
accumulated message (queued only when non-empty) and resets the accumulator;
any other byte is accumulated when below the cap, otherwise the accumulator
is reset and the byte discarded. -/
def processByte (s : RxState) (b : Nat) : RxState :=
  if b = EOT then
    if 0 < s.acc.length then ⟨[], s.pending ++ [s.acc]⟩ else ⟨[], s.pending⟩
  else
    if s.acc.length < msgCap then ⟨s.acc ++ [b], s.pending⟩
    else ⟨[], s.pending⟩

/-- Processing of one transport read (`for i in range(bytes_read)`). -/
def processBytes (s : RxState) (bs : List Nat) : RxState :=
  bs.foldl processByte s

/-- One `BLE.receive` call once bytes have been processed: return the
first queued message, if any (src/src/ble.py lines 363-367 and 424-428). -/
def receiveOne (s : RxState) : Option (List Nat × RxState) :=
  match s.pending with
  | [] => none
  | m :: rest => some (m, ⟨s.acc, rest⟩)

/-- A well-formed wire frame payload: non-empty, within the 512-byte buffer
cap, containing no EOT byte. -/
def wfPayload (m : List Nat) : Prop :=
  m ≠ [] ∧ m.length ≤ msgCap ∧ EOT ∉ m

instance : DecidablePred wfPayload := fun m => by
  unfold wfPayload; infer_instance

/-- An EOT-terminated frame as produced by `BLE.send`
(src/src/ble.py line 295: `message + '\x04'`). -/
def frame (m : List Nat) : List Nat := m ++ [EOT]

/-- N frames concatenated into a single transport read. -/
def wire (msgs : List (List Nat)) : List Nat :=
  (msgs.map frame).flatten

/-- Framing invariant used for claims C9/C10: the accumulator never exceeds
the 512-byte cap and every queued message is non-empty and within the cap. -/
def RxInv (s : RxState) : Prop :=
  s.acc.length ≤ msgCap ∧ ∀ m ∈ s.pending, m ≠ [] ∧ m.length ≤ msgCap

end BLE

/-! ## Sync statistics (src/src/sync_stats.py) -/

/-- The `SyncStats` collector: three parallel sample buffers plus a running
total count (`self.last_sample_time`, a wall-clock value used only for log
output, is not modelled).  Sample values are integer microsecond counts. -/
structure SyncStats where
  max_samples : Nat
  network_latency_samples : List Int
  execution_time_samples : List Int
  total_latency_samples : List Int
  sample_count : Nat
  deriving Repr, DecidableEq

/-- Embeds `SyncStats.__init__` (src/src/sync_stats.py lines 33-49). -/
def SyncStats.init (max_samples : Nat) : SyncStats :=
  ⟨max_samples, [], [], [], 0⟩

/-- Embeds `SyncStats.add_sample` (src/src/sync_stats.py lines 51-72): append to all
three buffers, then `pop(0)` from all three when the size exceeds
`max_samples`. -/
def SyncStats.add_sample (s : SyncStats) (n e t : Int) : SyncStats :=
  let net := s.network_latency_samples ++ [n]
  let ex := s.execution_time_samples ++ [e]
  let tot := s.total_latency_samples ++ [t]
  if s.max_samples < net.length then
    { s with network_latency_samples := net.tail, execution_time_samples := ex.tail,
             total_latency_samples := tot.tail, sample_count := s.sample_count + 1 }
  else
    { s with network_latency_samples := net, execution_time_samples := ex,
             total_latency_samples := tot, sample_count := s.sample_count + 1 }

/-- A whole run of `add_sample` calls, as sample triples
`(network, execution, total)`. -/
def SyncStats.add_samples (s : SyncStats) (xs : List (Int × Int × Int)) : SyncStats :=
  xs.foldl (fun st x => st.add_sample x.1 x.2.1 x.2.2) s

/-- Abstract model for claim C6: a single ring buffer of sample triples with
the same append/pop-oldest discipline as `add_sample`. -/
def sampleModelAdd (cap : Nat) (buf : List (Int × Int × Int)) (x : Int × Int × Int) :
    List (Int × Int × Int) :=
  if cap < (buf ++ [x]).length then (buf ++ [x]).tail else buf ++ [x]

/-- Representation relation between a `SyncStats` value and the triple-buffer
model: same capacity, and the three buffers are the three projections. -/
def StatsRep (cap : Nat) (st : SyncStats) (buf : List (Int × Int × Int)) : Prop :=
  st.max_samples = cap ∧
  st.network_latency_samples = buf.map (·.1) ∧
  st.execution_time_samples = buf.map (fun x => x.2.1) ∧
  st.total_latency_samples = buf.map (fun x => x.2.2)

/-- Embeds `sorted(samples)` in `SyncStats.get_statistics`
(src/src/sync_stats.py line 93). -/
def sorted_samples (samples : List Int) : List Int :=
  samples.insertionSort (· ≤ ·)

/-- The per-metric report of `SyncStats.get_statistics`
(src/src/sync_stats.py lines 96-104).  The Python float mean is modelled as
an exact rational; the percentile index `int(n * 0.95)` (resp. `0.99`) is
modelled as `n * 95 / 100` (resp. `n * 99 / 100`) in exact arithmetic, which
agrees with the double-precision computation for all feasible buffer sizes;
`sorted_samples[-1]` is index `n - 1`. -/
structure MetricStats where
  mean : Rat
  median : Int
  min : Int
  max : Int
  p95 : Int
  p99 : Int
  sample_count : Nat
  deriving Repr, DecidableEq

/-- The `p95` entry: `sorted_samples[int(n * 0.95)] if n > 20 else
sorted_samples[-1]` (src/src/sync_stats.py line 101). -/
def report_p95 (samples : List Int) : Int :=
  let ss := sorted_samples samples
  let n := ss.length
  if 20 < n then ss.getD (n * 95 / 100) 0 else ss.getD (n - 1) 0

/-- The `p99` entry: `sorted_samples[int(n * 0.99)] if n > 100 else
sorted_samples[-1]` (src/src/sync_stats.py line 102). -/
def report_p99 (samples : List Int) : Int :=
  let ss := sorted_samples samples
  let n := ss.length
  if 100 < n then ss.getD (n * 99 / 100) 0 else ss.getD (n - 1) 0

/-- One metric's dictionary in `get_statistics` (src/src/sync_stats.py
lines 96-104). -/
def metricStats (samples : List Int) : MetricStats :=
  let ss := sorted_samples samples
  let n := ss.length
  { mean := (samples.sum : Rat) / n
    median := ss.getD (n / 2) 0
    min := ss.getD 0 0
    max := ss.getD (n - 1) 0
    p95 := report_p95 samples
    p99 := report_p99 samples
    sample_count := n }

/-- Embeds `SyncStats.get_statistics` (src/src/sync_stats.py lines 74-106):
`None` when no samples, else the three per-metric reports. -/
def SyncStats.get_statistics (s : SyncStats) :
    Option (MetricStats × MetricStats × MetricStats) :=
  if s.network_latency_samples = [] then none
  else some (metricStats s.network_latency_samples,
             metricStats s.execution_time_samples,
             metricStats s.total_latency_samples)

/-! ## SYNC wire codec and SECONDARY command handler (src/src/app.py)

Python strings are modelled as `List Char`. -/

/-- The whitespace characters stripped by Python `str.strip()`. -/
def pySpaceChars : List Char := [' ', '\t', '\n', '\r', '\x0b', '\x0c']

def isPySpace (c : Char) : Bool := pySpaceChars.contains c

/-- Python `str.strip()`: remove leading and trailing whitespace. -/
def pyStrip (s : List Char) : List Char :=
  ((s.dropWhile isPySpace).reverse.dropWhile isPySpace).reverse

/-- Split a list at the first occurrence of `sep`:
`some (before, after)`, or `none` when `sep` does not occur. -/
def breakAtChar (sep : Char) : List Char → Option (List Char × List Char)
  | [] => none
  | c :: t =>
    if c = sep then some ([], t)
    else
      match breakAtChar sep t with
      | none => none
      | some (a, b) => some (c :: a, b)

/-- Python `s.split(sep, 2)`: at most two splits, i.e. at most three parts. -/
def pySplitMax2 (sep : Char) (s : List Char) : List (List Char) :=
  match breakAtChar sep s with
  | none => [s]
  | some (a, r) =>
    match breakAtChar sep r with
    | none => [a, r]
    | some (b, r2) => [a, b, r2]

def digitVal (c : Char) : Nat := c.toNat - 48

def natOfDigits (ds : List Char) : Nat :=
  ds.foldl (fun n c => n * 10 + digitVal c) 0

/-- Python `int(s)` as used by the SYNC decoder's `int(value)` coercion
(src/src/app.py line 1206): optional surrounding whitespace, optional sign,
then a non-empty run of decimal digits.  (CPython's digit-grouping
underscores and non-ASCII digits are not modelled.) -/
def pyParseInt (s : List Char) : Option Int :=
  match pyStrip s with
  | [] => none
  | c :: rest =>
    if c = '-' then
      if rest ≠ [] ∧ rest.all Char.isDigit then some (-(natOfDigits rest : Int))
      else none
    else if c = '+' then
      if rest ≠ [] ∧ rest.all Char.isDigit then some ((natOfDigits rest : Int))
      else none
    else if (c :: rest).all Char.isDigit then some ((natOfDigits (c :: rest) : Int))
    else none

/-- Decimal digits, fuel-based so that the definition reduces by
evaluation (`fuel` strictly exceeds the argument). -/
def natToDigitsAux : Nat → Nat → List Char
  | 0, _ => []
  | fuel + 1, n =>
    if n < 10 then [Char.ofNat (48 + n)]
    else natToDigitsAux fuel (n / 10) ++ [Char.ofNat (48 + n % 10)]

/-- Decimal digits of a natural number, most significant first
(Python `str(n)` for `n ≥ 0`). -/
def natToDigits (n : Nat) : List Char :=
  natToDigitsAux (n + 1) n

/-- Python `str(z)` for an `int`. -/
def intToStr (z : Int) : List Char :=
  if z < 0 then '-' :: natToDigits z.natAbs else natToDigits z.natAbs

/-- A SYNC DATA value: the source stores `int | str` values in its
payload dicts. -/
inductive SyncVal where
  | int (n : Int)
  | str (s : List Char)
  deriving Repr, DecidableEq

/-- Python `str(value)` as applied by the encoder
(src/src/app.py line 401). -/
def pyStr : SyncVal → List Char
  | .int n => intToStr n
  | .str s => s

/-- The decoder's value coercion (src/src/app.py lines 1204-1208):
`int(value)` when it parses, else the string unchanged. -/
def coerceVal (s : List Char) : SyncVal :=
  match pyParseInt s with
  | some n => .int n
  | none => .str s

/-- Python `"|".join(parts)`. -/
def pyJoinPipe : List (List Char) → List Char
  | [] => []
  | [p] => p
  | p :: ps => p ++ '|' :: pyJoinPipe ps

/-- The flat `parts` list built by the encoder: `str(key), str(value)` for
each dict item in insertion order (src/src/app.py lines 398-401). -/
def dataParts (data : List (List Char × SyncVal)) : List (List Char) :=
  (data.map fun kv => [kv.1, pyStr kv.2]).flatten

/-- The encoder's `data_str` (src/src/app.py lines 396-402). -/
def encodeData (data : List (List Char × SyncVal)) : List Char :=
  pyJoinPipe (dataParts data)

/-- The `send_sync_command` message construction (src/src/app.py line 404):
`"SYNC:" + command_type + ":" + data_str`. -/
def send_sync_command (command_type : List Char) (data : List (List Char × SyncVal)) :
    List Char :=
  ("SYNC:").data ++ command_type ++ ':' :: encodeData data

/-- Python `data[key] = value`: replace in place when the key exists,
else append (insertion-ordered dict semantics). -/
def dictSet (d : List (List Char × SyncVal)) (k : List Char) (v : SyncVal) :
    List (List Char × SyncVal) :=
  match d with
  | [] => [(k, v)]
  | (k', v') :: rest =>
    if k' = k then (k, v) :: rest else (k', v') :: dictSet rest k v

/-- Python `data.get(key)`. -/
def dictGet (d : List (List Char × SyncVal)) (k : List Char) : Option SyncVal :=
  match d with
  | [] => none
  | (k', v) :: rest => if k' = k then some v else dictGet rest k

/-- Python `data.get(key, default)`. -/
def dictGetD (d : List (List Char × SyncVal)) (k : List Char) (v₀ : SyncVal) : SyncVal :=
  (dictGet d k).getD v₀

/-- The decoder's pair loop (src/src/app.py lines 1200-1212):
`for i in range(0, len(data_parts), 2)`, storing `data[key] = value` with
integer coercion; a trailing key without a value is skipped. -/
def parsePairs : List (List Char) → List (List Char × SyncVal) → List (List Char × SyncVal)
  | k :: v :: rest, d => parsePairs rest (dictSet d k (coerceVal v))
  | _, d => d

/-- The decoder's DATA parsing (src/src/app.py lines 1196-1209): empty
`data_str` yields an empty dict, otherwise split on `'|'` and fill pairwise. -/
def parseData (dataStr : List Char) : List (List Char × SyncVal) :=
  if dataStr = [] then [] else parsePairs (dataStr.splitOn '|') []

/-- The decoder's message framing (src/src/app.py lines 1179-1187):
`message.strip().split(':', 2)`; fewer than two parts is a format error,
otherwise `(command_type, data_str)` with a missing third part read as `""`. -/
def parseSyncMessage (message : List Char) : Option (List Char × List Char) :=
  match pySplitMax2 ':' (pyStrip message) with
  | [] => none
  | [_] => none
  | [_, c] => some (c, [])
  | _ :: c :: d :: _ => some (c, d)

/-- Python truthiness of an optional payload value, as used by
`if command_timestamp and self.sync_stats:` (src/src/app.py line 1228). -/
def pyTruthy (v : Option SyncVal) : Bool :=
  match v with
  | none => false
  | some (.int n) => n ≠ 0
  | some (.str s) => s ≠ []

/-- Approximation of Python `float(v)` succeeding, used only for the
START_SESSION `float(jitter_int)` conversion (src/src/app.py line 1288):
ints always convert; strings convert when they are a plain decimal literal
(optional sign, digits, at most one dot; exponent/inf/nan forms are not
modelled). -/
def pyFloatOk : SyncVal → Bool
  | .int _ => true
  | .str s =>
    let t := pyStrip s
    let t1 := match t with
      | c :: rest => if c = '-' ∨ c = '+' then rest else t
      | [] => []
    t1 ≠ [] && t1.count '.' ≤ 1 && t1.all (fun c => c.isDigit || c = '.') &&
      t1.any Char.isDigit

/-- The SECONDARY state-machine triggers issued by the SYNC handler. -/
inductive StateTrigger where
  | START_SESSION
  | PAUSE_SESSION
  | RESUME_SESSION
  | STOP_SESSION
  | STOPPED
  deriving Repr, DecidableEq

/-- Observable side effects of `_handle_sync_command`, in program order:
actuator calls, state-machine triggers, LED/engine/heartbeat/telemetry
updates and log lines.  `recordSample` carries the computed
`network_latency_us`; the `execution`/`total` sample entries are pure
clock readings and are not modelled. -/
inductive SyncEffect where
  | touchSyncTimestamp
  | warnSeqGap (gap : Int)
  | activate (finger amplitude : SyncVal)
  | deactivate (finger : SyncVal)
  | recordSample (networkLatencyUs : Int)
  | trigger (t : StateTrigger)
  | ledRunning
  | enginePause
  | engineResume
  | engineStop
  | heartbeatReceived
  | logUnknownCommand
  | logFormatError
  | handlerException
  deriving Repr, DecidableEq

/-- The SECONDARY's command-loss monitor state (src/src/app.py
lines 233-234). -/
structure SecondarySyncState where
  last_received_seq : Int
  missed_commands : Int
  deriving Repr, DecidableEq

/-- Initial values `_last_received_seq = -1`, `_missed_commands = 0`
(src/src/app.py lines 233-234). -/
def initSecondarySyncState : SecondarySyncState := ⟨-1, 0⟩

/-- Embeds `BlueBuzzahApplication._handle_sync_command` (src/src/app.py
lines 1161-1347) as a state transformer over the command-loss monitor state,
emitting the observable effect trace.  Parameters: `debug` is the
`DEBUG_ENABLED` flag (module `core.constants`, outside the given sources);
`tReceiveUs` is the microsecond receive timestamp `t_receive // 1000`.
`self.therapy_engine` and `self.sync_stats` are constructed unconditionally
during initialisation and are modelled as present (truthy).  A caught
exception inside the handler (`except Exception`) truncates the effect
trace at the raise point and appends `handlerException`. -/
def handle_sync_command (debug : Bool) (tReceiveUs : Int)
    (st : SecondarySyncState) (message : List Char) :
    SecondarySyncState × List SyncEffect :=
  match parseSyncMessage message with
  | none => (st, [.logFormatError])
  | some (cmd, dataStr) =>
    let e0 : List SyncEffect := [.touchSyncTimestamp]
    let data := parseData dataStr
    if cmd = ("EXECUTE_BUZZ").data then
      match dictGetD data ("seq").data (.int (-1)) with
      | .str _ => (st, e0 ++ [.handlerException])
      | .int seq =>
        let gap := seq - st.last_received_seq - 1
        let warnEffs : List SyncEffect :=
          if 0 ≤ seq ∧ st.last_received_seq + 1 < seq ∧ 0 ≤ st.last_received_seq then
            [.warnSeqGap gap]
          else []
        let st1 : SecondarySyncState :=
          if 0 ≤ seq then
            { last_received_seq := seq,
              missed_commands :=
                if st.last_received_seq + 1 < seq ∧ 0 ≤ st.last_received_seq then
                  st.missed_commands + gap
                else st.missed_commands }
          else st
        let tsVal := dictGet data ("timestamp").data
        let finish := fun (net : Int) =>
          let l := dictGetD data ("left_finger").data (.int 0)
          let r := dictGetD data ("right_finger").data (.int 0)
          let a := dictGetD data ("amplitude").data (.int 100)
          (st1, e0 ++ warnEffs ++
            [SyncEffect.activate l a, SyncEffect.activate r a,
             SyncEffect.recordSample net])
        if pyTruthy tsVal then
          match tsVal with
          | some (SyncVal.int ts) => finish (tReceiveUs - ts)
          | _ => (st1, e0 ++ warnEffs ++ [SyncEffect.handlerException])
        else finish 0
    else if cmd = ("DEACTIVATE").data then
      let l := dictGetD data ("left_finger").data (.int 0)
      let r := dictGetD data ("right_finger").data (.int 0)
      (st, e0 ++ [.deactivate l, .deactivate r])
    else if cmd = ("START_SESSION").data then
      if pyFloatOk (dictGetD data ("jitter_percent").data (.int 235)) then
        (st, e0 ++ [.trigger .START_SESSION, .ledRunning])
      else (st, e0 ++ [.handlerException])
    else if cmd = ("PAUSE_SESSION").data then
      (st, e0 ++ [.enginePause, .trigger .PAUSE_SESSION])
    else if cmd = ("RESUME_SESSION").data then
      (st, e0 ++ [.engineResume, .trigger .RESUME_SESSION])
    else if cmd = ("STOP_SESSION").data then
      (st, e0 ++ [.engineStop, .trigger .STOP_SESSION, .trigger .STOPPED])
    else if cmd = ("HEARTBEAT").data then
      (st, e0 ++ [.heartbeatReceived])
    else
      (st, e0 ++ (if debug then [.logUnknownCommand] else []))

/-- Composition of the decoder's framing and DATA parsing: the
`(command_type, data)` pair a received message is dispatched with
(src/src/app.py lines 1179-1212). -/
def decodeSyncMessage (message : List Char) :
    Option (List Char × List (List Char × SyncVal)) :=
  match parseSyncMessage message with
  | none => none
  | some (c, d) => some (c, parseData d)

/-- Is this effect the sequence-gap warning log line? -/
def isSeqGapWarning : SyncEffect → Bool
  | .warnSeqGap _ => true
  | _ => false

/-- The command types known to the SECONDARY dispatcher. -/
def knownCommands : List (List Char) :=
  [("EXECUTE_BUZZ").data, ("DEACTIVATE").data, ("START_SESSION").data,
   ("PAUSE_SESSION").data, ("RESUME_SESSION").data, ("STOP_SESSION").data,
   ("HEARTBEAT").data]

/-! ## Heartbeat-timeout recovery (src/src/app.py lines 1374-1457) and the
PRIMARY boot sequence (src/src/app.py lines 662-743) -/

/-- Modelled from the spec: the `TherapyState` enum is declared in
`core/types.py`, which is not among the given sources; its variants are
taken from spec §3.  The recovery and boot logic proved below comes from
src/src/app.py. -/
inductive TherapyState where
  | IDLE
  | READY
  | RUNNING
  | PAUSED
  | STOPPING
  | CONNECTION_LOST
  | LOW_BATTERY
  | CRITICAL_BATTERY
  | ERROR
  deriving Repr, DecidableEq

/-- Modelled from the spec: the `BootResult` enum is declared in
`core/types.py`, which is not among the given sources; its variants are
taken from spec §3 (`{FAILED, SUCCESS, SUCCESS_NO_PHONE,
SUCCESS_WITH_PHONE}`). -/
inductive BootResult where
  | FAILED
  | SUCCESS
  | SUCCESS_NO_PHONE
  | SUCCESS_WITH_PHONE
  deriving Repr, DecidableEq

/-- Observable actions of the heartbeat-timeout recovery path, in program
order: actuator emergency stop, forced state-machine jumps, LED updates,
heartbeat-tracking reset, BLE scans (with their window in seconds) and
inter-attempt delays (in seconds). -/
inductive RecoveryEvent where
  | emergencyStop
  | forceState (s : TherapyState)
  | ledConnectionLost
  | ledScanning
  | ledReady
  | ledFailure
  | clearHeartbeat
  | scan (windowSec : Nat)
  | sleep (sec : Nat)
  deriving Repr, DecidableEq

/-- Embeds `BlueBuzzahApplication._attempt_reconnect_to_primary` (src/src/app.py
lines 1411-1457), with the `for attempt in range(MAX_ATTEMPTS)` loop
(`MAX_ATTEMPTS = 3`, `DELAY_SEC = 2.0`, scan `timeout=10.0`) unrolled.
`s0 s1 s2` are the outcomes of the three potential scan attempts (a caught
scan exception behaves like a failed scan).  On success the state is forced
to READY and the function returns; after each failed attempt it sleeps 2 s;
on exhaustion the state is forced to IDLE. -/
def attempt_reconnect_to_primary (s0 s1 s2 : Bool) : List RecoveryEvent :=
  [.ledScanning, .scan 10] ++
  (if s0 then [.forceState .READY, .ledReady]
   else [.sleep 2] ++ ([.ledScanning, .scan 10] ++
     (if s1 then [.forceState .READY, .ledReady]
      else [.sleep 2] ++ ([.ledScanning, .scan 10] ++
        (if s2 then [.forceState .READY, .ledReady]
         else [.sleep 2] ++ [.forceState .IDLE, .ledFailure])))))

/-- Embeds `BlueBuzzahApplication._handle_heartbeat_timeout` (src/src/app.py
lines 1374-1409): emergency-stop the motors first (`self.haptic_controller`
is constructed during initialisation and modelled as present), force
CONNECTION_LOST, update the LED, clear `_last_heartbeat_received`, then run
the reconnection attempts. -/
def handle_heartbeat_timeout (s0 s1 s2 : Bool) : List RecoveryEvent :=
  [.emergencyStop, .forceState .CONNECTION_LOST, .ledConnectionLost,
   .clearHeartbeat] ++ attempt_reconnect_to_primary s0 s1 s2

def isScanEvent : RecoveryEvent → Bool
  | .scan _ => true
  | _ => false

def isSleepEvent : RecoveryEvent → Bool
  | .sleep _ => true
  | _ => false

/-- The polling loop of `_primary_boot_sequence` (src/src/app.py
lines 695-727), in discrete iterations: `fuel` iterations remain in the
startup window, `i` is the current iteration index; `secAt`/`phoneAt` give
whether a SECONDARY (resp. phone) connection is accepted by the
`wait_for_connection` poll at a given iteration.  Per iteration the
SECONDARY slot is polled only while unconnected, the phone slot only once
the SECONDARY is connected, and the loop exits early when both are
connected. -/
def primary_boot_poll : Nat → Nat → (Nat → Bool) → (Nat → Bool) → Bool → Bool →
    Bool × Bool
  | 0, _, _, _, sec, phone => (sec, phone)
  | fuel + 1, i, secAt, phoneAt, sec, phone =>
    let sec' := sec || (!sec && secAt i)
    let phone' := if !phone && sec' then phoneAt i else phone
    if sec' && phone' then (sec', phone')
    else primary_boot_poll fuel (i + 1) secAt phoneAt sec' phone'

/-- Embeds `BlueBuzzahApplication._primary_boot_sequence` (src/src/app.py
lines 662-743): FAILED when advertising raises (`advOk = false`) or when no
SECONDARY connection was accepted before the window expired; otherwise
`SUCCESS_WITH_PHONE`/`SUCCESS_NO_PHONE` according to the phone slot. -/
def primary_boot_sequence (advOk : Bool) (fuel : Nat)
    (secAt phoneAt : Nat → Bool) : BootResult :=
  if !advOk then BootResult.FAILED
  else
    let r := primary_boot_poll fuel 0 secAt phoneAt false false
    if !r.1 then BootResult.FAILED
    else if r.2 then BootResult.SUCCESS_WITH_PHONE
    else BootResult.SUCCESS_NO_PHONE

end BlueBuzzah

namespace BlueBuzzah

namespace BLE

theorem processBytes_append (s : RxState) (xs ys : List Nat) :
    processBytes s (xs ++ ys) = processBytes (processBytes s xs) ys :=
  List.foldl_append ..

theorem processBytes_accumulate (m : List Nat) :
    ∀ (a : List Nat) (p : List (List Nat)), EOT ∉ m →
      a.length + m.length ≤ msgCap →
      processBytes ⟨a, p⟩ m = ⟨a ++ m, p⟩ := by
  induction m with
  | nil =>
    intro a p _ _
    show RxState.mk a p = ⟨a ++ [], p⟩
    rw [List.append_nil]
  | cons b t ih =>
    intro a p hno hlen
    have hb : b ≠ EOT := fun h => hno (h ▸ List.mem_cons_self b t)
    have ht : EOT ∉ t := fun h => hno (List.mem_cons_of_mem _ h)
    have ha : a.length < msgCap := by
      have := hlen; simp [List.length_cons] at this; omega
    have hstep : processByte ⟨a, p⟩ b = ⟨a ++ [b], p⟩ := by
      simp [processByte, hb, ha]
    have hlen' : (a ++ [b]).length + t.length ≤ msgCap := by
      rw [List.length_append, List.length_singleton]
      rw [List.length_cons] at hlen
      omega
    calc processBytes ⟨a, p⟩ (b :: t)
        = processBytes (processByte ⟨a, p⟩ b) t := rfl
      _ = processBytes ⟨a ++ [b], p⟩ t := by rw [hstep]
      _ = ⟨(a ++ [b]) ++ t, p⟩ := ih (a ++ [b]) p ht hlen'
      _ = ⟨a ++ b :: t, p⟩ := by simp

theorem processBytes_frame (m : List Nat) (p : List (List Nat))
    (h : wfPayload m) :
    processBytes ⟨[], p⟩ (frame m) = ⟨[], p ++ [m]⟩ := by
  obtain ⟨hne, hlen, hno⟩ := h
  have h1 : processBytes ⟨[], p⟩ m = ⟨m, p⟩ := by
    have := processBytes_accumulate m [] p hno (by simpa using hlen)
    simpa using this
  have h2 : 0 < m.length := List.length_pos.mpr hne
  calc processBytes ⟨[], p⟩ (frame m)
      = processBytes (processBytes ⟨[], p⟩ m) [EOT] := processBytes_append ..
    _ = processByte ⟨m, p⟩ EOT := by rw [h1]; rfl
    _ = ⟨[], p ++ [m]⟩ := by simp [processByte, h2]

theorem processBytes_wire (msgs : List (List Nat)) :
    ∀ p, (∀ m ∈ msgs, wfPayload m) →
      processBytes ⟨[], p⟩ (wire msgs) = ⟨[], p ++ msgs⟩ := by
  induction msgs with
  | nil => intro p _; simp [wire, processBytes]
  | cons m rest ih =>
    intro p hwf
    have hm : wfPayload m := hwf m (List.mem_cons_self m rest)
    have hrest : ∀ x ∈ rest, wfPayload x := fun x hx => hwf x (List.mem_cons_of_mem _ hx)
    have : wire (m :: rest) = frame m ++ wire rest := by simp [wire]
    rw [this, processBytes_append, processBytes_frame m p hm, ih (p ++ [m]) hrest]
    simp

/-- Claim C1: A transport read delivering N concatenated well-formed, non-empty,
EOT-terminated frames leaves the framer with an empty accumulator and the
N payloads queued, in send order and without their EOT terminators; successive
`receive` calls pop this queue front-first, so they return exactly those
payloads in order. -/
theorem receive_delivers_concatenated_frames_in_order
    (msgs : List (List Nat)) (h : ∀ m ∈ msgs, wfPayload m) :
    processBytes rxInit (wire msgs) = ⟨[], msgs⟩ ∧
    ∀ (s : RxState) (m : List Nat) (rest : List (List Nat)),
      s.pending = m :: rest → receiveOne s = some (m, ⟨s.acc, rest⟩) := by
  constructor
  · simpa using processBytes_wire msgs [] h
  · intro s m rest hp
    simp [receiveOne, hp]

theorem receive_delivers_concatenated_frames_in_order_witness :
    (∀ m ∈ [[72], [73, 74]], wfPayload m) ∧
    processBytes rxInit (wire [[72], [73, 74]]) = ⟨[], [[72], [73, 74]]⟩ ∧
    receiveOne ⟨[], [[72], [73, 74]]⟩ = some ([72], ⟨[], [[73, 74]]⟩) := by
  refine ⟨by decide, ?_, ?_⟩
  · exact (receive_delivers_concatenated_frames_in_order [[72], [73, 74]]
      (by decide)).1
  · exact (receive_delivers_concatenated_frames_in_order [[72], [73, 74]]
      (by decide)).2 ⟨[], [[72], [73, 74]]⟩ [72] [[73, 74]] rfl

theorem processByte_inv {s : RxState} (h : RxInv s) (b : Nat) :
    RxInv (processByte s b) := by
  obtain ⟨hacc, hpend⟩ := h
  unfold processByte
  by_cases hb : b = EOT
  · subst hb
    simp only [if_pos rfl]
    by_cases hlen : 0 < s.acc.length
    · simp only [if_pos hlen]
      refine ⟨by simp [msgCap], ?_⟩
      intro m hm
      rcases List.mem_append.mp hm with h1 | h2
      · exact hpend m h1
      · have hm2 : m = s.acc := List.mem_singleton.mp h2
        subst hm2
        exact ⟨List.ne_nil_of_length_pos hlen, hacc⟩
    · simp only [if_neg hlen]
      exact ⟨by simp [msgCap], hpend⟩
  · simp only [if_neg hb]
    by_cases hlt : s.acc.length < msgCap
    · simp only [if_pos hlt]
      refine ⟨?_, hpend⟩
      simp only [List.length_append, List.length_singleton]
      omega
    · simp only [if_neg hlt]
      exact ⟨by simp [msgCap], hpend⟩

theorem processBytes_inv (bs : List Nat) :
    ∀ s : RxState, RxInv s → RxInv (processBytes s bs) := by
  induction bs with
  | nil => intro s h; exact h
  | cons b t ih =>
    intro s h
    exact ih (processByte s b) (processByte_inv h b)

theorem acc_processByte_eot (s : RxState) : (processByte s EOT).acc = [] := by
  by_cases h : 0 < s.acc.length <;> simp [processByte, h]

theorem acc_processBytes_frame (q : List Nat) (s : RxState) :
    (processBytes s (frame q)).acc = [] := by
  have : processBytes s (frame q) = processByte (processBytes s q) EOT := by
    rw [frame, processBytes_append]
    rfl
  rw [this, acc_processByte_eot]

/-- Claim C9: Buffer-overflow safety of `BLE.receive`:
(1) from any state satisfying the framing invariant, after any byte stream
the accumulator holds at most 512 bytes and every queued message is within
the 512-byte cap (so an oversized message is never delivered);
(2) when a non-EOT byte arrives with the accumulator full, the accumulator
is reset to empty and nothing is queued;
(3) after an oversized frame, the receive loop keeps going: a following
well-formed frame is still delivered, while the oversized payload itself
never is. -/
theorem receive_buffer_overflow_safety :
    (∀ (bs : List Nat) (s : RxState), RxInv s →
      (processBytes s bs).acc.length ≤ msgCap ∧
      ∀ m ∈ (processBytes s bs).pending, m.length ≤ msgCap) ∧
    (∀ (s : RxState) (b : Nat), s.acc.length = msgCap → b ≠ EOT →
      processByte s b = ⟨[], s.pending⟩) ∧
    (∀ q m : List Nat, EOT ∉ q → msgCap < q.length → wfPayload m →
      m ∈ (processBytes rxInit (frame q ++ frame m)).pending ∧
      q ∉ (processBytes rxInit (frame q ++ frame m)).pending) := by
  refine ⟨?_, ?_, ?_⟩
  · intro bs s hs
    have h := processBytes_inv bs s hs
    exact ⟨h.1, fun m hm => (h.2 m hm).2⟩
  · intro s b hfull hb
    have hnlt : ¬ s.acc.length < msgCap := by omega
    simp [processByte, hb, hnlt]
  · intro q m hq hlong hwf
    have hinit : RxInv rxInit := by constructor <;> simp [rxInit, msgCap]
    have hs1 : processBytes rxInit (frame q ++ frame m)
        = processBytes (processBytes rxInit (frame q)) (frame m) :=
      processBytes_append ..
    have hacc : (processBytes rxInit (frame q)).acc = [] :=
      acc_processBytes_frame q rxInit
    have hstate : processBytes rxInit (frame q)
        = ⟨[], (processBytes rxInit (frame q)).pending⟩ := by
      cases hst : processBytes rxInit (frame q) with
      | mk a p => rw [hst] at hacc; simp at hacc; rw [hacc]
    have hfin : processBytes rxInit (frame q ++ frame m)
        = ⟨[], (processBytes rxInit (frame q)).pending ++ [m]⟩ := by
      rw [hs1, hstate, processBytes_frame m _ hwf]
    constructor
    · rw [hfin]; simp
    · intro hqmem
      have hinv := processBytes_inv (frame q ++ frame m) rxInit hinit
      have := (hinv.2 q hqmem).2
      omega

theorem receive_buffer_overflow_safety_witness :
    (RxInv rxInit ∧
      (processBytes rxInit [1, 2, EOT]).acc.length ≤ msgCap) ∧
    ((⟨List.replicate msgCap 7, []⟩ : RxState).acc.length = msgCap ∧
      processByte ⟨List.replicate msgCap 7, []⟩ 9 = ⟨[], []⟩) ∧
    (EOT ∉ List.replicate 513 65 ∧ msgCap < 513 ∧ wfPayload [66] ∧
      [66] ∈ (processBytes rxInit
        (frame (List.replicate 513 65) ++ frame [66])).pending) := by
  refine ⟨⟨?_, ?_⟩, ⟨?_, ?_⟩, ?_, ?_, ?_, ?_⟩
  · constructor <;> simp [rxInit, msgCap]
  · exact (receive_buffer_overflow_safety.1 [1, 2, EOT] rxInit
      (by constructor <;> simp [rxInit, msgCap])).1
  · simp [msgCap]
  · exact receive_buffer_overflow_safety.2.1 ⟨List.replicate msgCap 7, []⟩ 9
      (by simp) (by decide)
  · simp [List.mem_replicate, EOT]
  · norm_num [msgCap]
  · decide
  · exact (receive_buffer_overflow_safety.2.2 (List.replicate 513 65) [66]
      (by simp [List.mem_replicate, EOT]) (by norm_num [msgCap]) (by decide)).1

/-- Claim C10: `BLE.receive` never returns an empty message: a zero-length
frame (an EOT with nothing accumulated, e.g. two consecutive EOT bytes) is
discarded without being queued, every queued message is non-empty, and any
message handed back by a receive call is non-empty. -/
theorem receive_never_returns_empty :
    (∀ (bs : List Nat) (s : RxState), RxInv s →
      ∀ m ∈ (processBytes s bs).pending, m ≠ []) ∧
    (∀ (bs : List Nat) (m : List Nat) (s' : RxState),
      receiveOne (processBytes rxInit bs) = some (m, s') → m ≠ []) ∧
    processBytes rxInit [65, EOT, EOT] = ⟨[], [[65]]⟩ := by
  refine ⟨?_, ?_, by decide⟩
  · intro bs s hs m hm
    exact ((processBytes_inv bs s hs).2 m hm).1
  · intro bs m s' hrecv
    have hinv : RxInv (processBytes rxInit bs) :=
      processBytes_inv bs rxInit (by constructor <;> simp [rxInit, msgCap])
    rcases hpend : (processBytes rxInit bs).pending with _ | ⟨m0, rest⟩
    · simp [receiveOne, hpend] at hrecv
    · simp only [receiveOne, hpend] at hrecv
      have hm0 : m = m0 := by
        injection hrecv with h1
        injection h1 with h2 _
        exact h2.symm
      subst hm0
      exact (hinv.2 m (by rw [hpend]; exact List.mem_cons_self _ _)).1

theorem receive_never_returns_empty_witness :
    (receiveOne (processBytes rxInit [65, EOT]) = some ([65], ⟨[], []⟩)) ∧
    (RxInv rxInit ∧ [65] ∈ (processBytes rxInit [65, EOT]).pending) ∧
    ([65] : List Nat) ≠ [] := by
  refine ⟨by decide, ⟨?_, by decide⟩, ?_⟩
  · constructor <;> simp [rxInit, msgCap]
  · exact receive_never_returns_empty.1 [65, EOT] rxInit
      (by constructor <;> simp [rxInit, msgCap]) [65] (by decide)

end BLE

end BlueBuzzah

namespace BlueBuzzah

theorem map_tail_comm {α β : Type} (f : α → β) (l : List α) :
    (l.map f).tail = l.tail.map f := by
  cases l <;> rfl

theorem statsRep_add (cap : Nat) (st : SyncStats) (buf : List (Int × Int × Int))
    (x : Int × Int × Int) (h : StatsRep cap st buf) :
    StatsRep cap (st.add_sample x.1 x.2.1 x.2.2) (sampleModelAdd cap buf x) := by
  obtain ⟨hc, h1, h2, h3⟩ := h
  simp only [SyncStats.add_sample, sampleModelAdd]
  rw [h1, h2, h3, hc]
  have hm1 : buf.map (·.1) ++ [x.1] = (buf ++ [x]).map (·.1) := by simp
  have hm2 : (buf.map fun y => y.2.1) ++ [x.2.1] = (buf ++ [x]).map (fun y => y.2.1) := by
    simp
  have hm3 : (buf.map fun y => y.2.2) ++ [x.2.2] = (buf ++ [x]).map (fun y => y.2.2) := by
    simp
  rw [hm1, hm2, hm3, List.length_map]
  split_ifs with hcond
  · exact ⟨rfl, (map_tail_comm _ _).symm ▸ map_tail_comm _ _,
      map_tail_comm _ _, map_tail_comm _ _⟩
  · exact ⟨rfl, rfl, rfl, rfl⟩

theorem statsRep_fold (cap : Nat) (xs : List (Int × Int × Int)) :
    ∀ (st : SyncStats) (buf : List (Int × Int × Int)), StatsRep cap st buf →
      StatsRep cap (st.add_samples xs) (xs.foldl (sampleModelAdd cap) buf) := by
  induction xs with
  | nil => intro st buf h; exact h
  | cons x rest ih =>
    intro st buf h
    exact ih (st.add_sample x.1 x.2.1 x.2.2) (sampleModelAdd cap buf x)
      (statsRep_add cap st buf x h)

theorem tail_append_singleton {α : Type} (d : List α) (x : α) (hd : d ≠ []) :
    (d ++ [x]).tail = d.tail ++ [x] := by
  cases d with
  | nil => exact absurd rfl hd
  | cons a t => rfl

theorem sampleModel_drop (cap : Nat) (xs : List (Int × Int × Int)) :
    xs.foldl (sampleModelAdd cap) [] = xs.drop (xs.length - cap) := by
  induction xs using List.reverseRecOn with
  | nil => simp
  | append_singleton ys x ih =>
    rw [List.foldl_append, List.foldl_cons, List.foldl_nil, ih]
    simp only [sampleModelAdd, List.length_append, List.length_singleton]
    by_cases hy : ys.length < cap
    · have hnc : ¬ cap < (List.drop (ys.length - cap) ys).length + 1 := by
        rw [List.length_drop]; omega
      rw [if_neg hnc]
      have h0 : ys.length - cap = 0 := by omega
      have h1 : ys.length + 1 - cap = 0 := by omega
      rw [h0, h1, List.drop_zero, List.drop_zero]
    · push_neg at hy
      have hdlen : (List.drop (ys.length - cap) ys).length = cap := by
        rw [List.length_drop]; omega
      have hc : cap < (List.drop (ys.length - cap) ys).length + 1 := by omega
      rw [if_pos hc]
      rcases Nat.eq_zero_or_pos cap with hcap0 | hcappos
      · subst hcap0
        have hd : List.drop (ys.length - 0) ys = [] := by
          rw [Nat.sub_zero]; exact List.drop_length ys
        rw [hd]
        have hge : (ys ++ [x]).length ≤ ys.length + 1 - 0 := by simp
        rw [List.drop_eq_nil_of_le hge]
        rfl
      · have hdne : List.drop (ys.length - cap) ys ≠ [] := by
          intro hnil
          rw [hnil] at hdlen
          simp at hdlen
          omega
        rw [tail_append_singleton _ _ hdne, List.tail_drop]
        have hidx : ys.length - cap + 1 = ys.length + 1 - cap := by omega
        have hle : ys.length + 1 - cap ≤ ys.length := by omega
        rw [hidx, List.drop_append_of_le_length hle]

/-- Claim C6: After any sequence of `add_sample` calls the three parallel
buffers are the three projections of a single ring buffer of triples: they
always have equal length, that length never exceeds `max_samples`, entries at
equal indices come from the same `add_sample` call, and on overflow the
oldest entry is dropped from all three together (the common buffer is the
suffix of the call sequence of length at most `max_samples`). -/
theorem add_sample_parallel_ring_buffers (cap : Nat) (xs : List (Int × Int × Int)) :
    (((SyncStats.init cap).add_samples xs).network_latency_samples
        = (xs.drop (xs.length - cap)).map (·.1)) ∧
    (((SyncStats.init cap).add_samples xs).execution_time_samples
        = (xs.drop (xs.length - cap)).map (fun y => y.2.1)) ∧
    (((SyncStats.init cap).add_samples xs).total_latency_samples
        = (xs.drop (xs.length - cap)).map (fun y => y.2.2)) ∧
    (((SyncStats.init cap).add_samples xs).network_latency_samples.length
        = ((SyncStats.init cap).add_samples xs).execution_time_samples.length) ∧
    (((SyncStats.init cap).add_samples xs).execution_time_samples.length
        = ((SyncStats.init cap).add_samples xs).total_latency_samples.length) ∧
    ((SyncStats.init cap).add_samples xs).network_latency_samples.length ≤ cap := by
  have h := statsRep_fold cap xs (SyncStats.init cap) [] ⟨rfl, rfl, rfl, rfl⟩
  rw [sampleModel_drop cap xs] at h
  obtain ⟨_, h1, h2, h3⟩ := h
  refine ⟨h1, h2, h3, ?_, ?_, ?_⟩
  · rw [h1, h2, List.length_map, List.length_map]
  · rw [h2, h3, List.length_map, List.length_map]
  · rw [h1, List.length_map, List.length_drop]
    omega

theorem sorted_samples_length (samples : List Int) :
    (sorted_samples samples).length = samples.length :=
  List.length_insertionSort ..

theorem sorted_samples_max (samples : List Int) (hne : samples ≠ []) :
    (sorted_samples samples).getD (samples.length - 1) 0 ∈ samples ∧
    ∀ x ∈ samples, x ≤ (sorted_samples samples).getD (samples.length - 1) 0 := by
  have hlen := sorted_samples_length samples
  have hpos : 0 < samples.length := List.length_pos.mpr hne
  have hidx : samples.length - 1 < (sorted_samples samples).length := by omega
  have hgetd : (sorted_samples samples).getD (samples.length - 1) 0
      = (sorted_samples samples)[samples.length - 1] :=
    List.getD_eq_getElem _ _ hidx
  have hperm : List.Perm (sorted_samples samples) samples :=
    List.perm_insertionSort _ samples
  constructor
  · rw [hgetd]
    exact hperm.mem_iff.mp (List.getElem_mem hidx)
  · intro x hx
    have hxss : x ∈ sorted_samples samples := hperm.mem_iff.mpr hx
    obtain ⟨i, hi, hxi⟩ := List.mem_iff_getElem.mp hxss
    have hsorted : (sorted_samples samples).Sorted (· ≤ ·) :=
      List.sorted_insertionSort _ samples
    rw [hgetd, ← hxi]
    rcases Nat.lt_or_ge i (samples.length - 1) with hlt | hge
    · exact List.pairwise_iff_getElem.mp hsorted i (samples.length - 1) hi hidx hlt
    · have hieq : i = samples.length - 1 := by omega
      subst hieq
      exact le_refl _

/-- Claim C7: In the per-metric statistics report on `n ≥ 1` samples, `p95`
equals the sorted sample at index `⌊0.95·n⌋` when `n ≥ 20` and otherwise
falls back to the maximum sample; `p99` equals the sorted sample at index
`⌊0.99·n⌋` when `n ≥ 100` and otherwise falls back to the maximum sample.
(The source tests `n > 20` / `n > 100`, but at `n = 20` and `n = 100` the
percentile index is `n - 1`, so the two readings coincide.) -/
theorem report_percentiles (samples : List Int) (hne : samples ≠ []) :
    (20 ≤ samples.length →
      report_p95 samples = (sorted_samples samples).getD (samples.length * 95 / 100) 0) ∧
    (samples.length < 20 →
      report_p95 samples ∈ samples ∧ ∀ x ∈ samples, x ≤ report_p95 samples) ∧
    (100 ≤ samples.length →
      report_p99 samples = (sorted_samples samples).getD (samples.length * 99 / 100) 0) ∧
    (samples.length < 100 →
      report_p99 samples ∈ samples ∧ ∀ x ∈ samples, x ≤ report_p99 samples) := by
  have hlen := sorted_samples_length samples
  refine ⟨?_, ?_, ?_, ?_⟩
  · intro h20
    simp only [report_p95]
    rw [hlen]
    by_cases h : 20 < samples.length
    · rw [if_pos h]
    · have h20e : samples.length = 20 := by omega
      rw [if_neg h, h20e]
  · intro h20
    have hnot : ¬ 20 < samples.length := by omega
    simp only [report_p95]
    rw [hlen, if_neg hnot]
    exact sorted_samples_max samples hne
  · intro h100
    simp only [report_p99]
    rw [hlen]
    by_cases h : 100 < samples.length
    · rw [if_pos h]
    · have h100e : samples.length = 100 := by omega
      rw [if_neg h, h100e]
  · intro h100
    have hnot : ¬ 100 < samples.length := by omega
    simp only [report_p99]
    rw [hlen, if_neg hnot]
    exact sorted_samples_max samples hne

theorem report_percentiles_witness :
    (([5, 1, 3] : List Int) ≠ []) ∧
    (([5, 1, 3] : List Int).length < 20) ∧
    (report_p95 [5, 1, 3] ∈ ([5, 1, 3] : List Int) ∧
      ∀ x ∈ ([5, 1, 3] : List Int), x ≤ report_p95 [5, 1, 3]) := by
  refine ⟨by decide, by decide, ?_⟩
  exact (report_percentiles [5, 1, 3] (by decide)).2.1 (by decide)

end BlueBuzzah

namespace BlueBuzzah

theorem digit_props (d : Nat) (hd : d < 10) :
    (Char.ofNat (48 + d)).isDigit = true ∧
    digitVal (Char.ofNat (48 + d)) = d ∧
    isPySpace (Char.ofNat (48 + d)) = false ∧
    Char.ofNat (48 + d) ≠ ':' ∧ Char.ofNat (48 + d) ≠ '|' ∧
    Char.ofNat (48 + d) ≠ '-' ∧ Char.ofNat (48 + d) ≠ '+' := by
  interval_cases d <;> decide

theorem natOfDigits_append (xs : List Char) (c : Char) :
    natOfDigits (xs ++ [c]) = natOfDigits xs * 10 + digitVal c := by
  unfold natOfDigits
  rw [List.foldl_append]
  rfl

theorem natToDigitsAux_spec (fuel : Nat) :
    ∀ n, n < fuel →
      natToDigitsAux fuel n ≠ [] ∧
      (∀ c ∈ natToDigitsAux fuel n,
        c.isDigit = true ∧ isPySpace c = false ∧ c ≠ ':' ∧ c ≠ '|' ∧
        c ≠ '-' ∧ c ≠ '+') ∧
      natOfDigits (natToDigitsAux fuel n) = n := by
  induction fuel with
  | zero => intro n hn; omega
  | succ fuel ih =>
    intro n hn
    by_cases h : n < 10
    · simp only [natToDigitsAux, if_pos h]
      obtain ⟨hdig, hval, hsp, hc1, hc2, hc3, hc4⟩ := digit_props n h
      refine ⟨by simp, ?_, ?_⟩
      · intro c hc
        rw [List.mem_singleton] at hc
        subst hc
        exact ⟨hdig, hsp, hc1, hc2, hc3, hc4⟩
      · show natOfDigits ([] ++ [Char.ofNat (48 + n)]) = n
        rw [natOfDigits_append]
        show 0 * 10 + digitVal (Char.ofNat (48 + n)) = n
        rw [hval]
        omega
    · simp only [natToDigitsAux, if_neg h]
      have hdiv : n / 10 < n := Nat.div_lt_self (by omega) (by omega)
      obtain ⟨hne, hprops, hval⟩ := ih (n / 10) (by omega)
      have hmod : n % 10 < 10 := Nat.mod_lt _ (by omega)
      obtain ⟨hdig2, hval2, hsp2, hd1, hd2, hd3, hd4⟩ := digit_props (n % 10) hmod
      refine ⟨by simp, ?_, ?_⟩
      · intro c hc
        rcases List.mem_append.mp hc with h1 | h2
        · exact hprops c h1
        · rw [List.mem_singleton] at h2
          subst h2
          exact ⟨hdig2, hsp2, hd1, hd2, hd3, hd4⟩
      · rw [natOfDigits_append, hval, hval2]
        omega

/-- The decimal rendering of a natural number is a non-empty string of
digit characters (none of which is special to the codec) and parses back
to the same number. -/
theorem natToDigits_spec (n : Nat) :
    natToDigits n ≠ [] ∧
    (∀ c ∈ natToDigits n,
      c.isDigit = true ∧ isPySpace c = false ∧ c ≠ ':' ∧ c ≠ '|' ∧
      c ≠ '-' ∧ c ≠ '+') ∧
    natOfDigits (natToDigits n) = n :=
  natToDigitsAux_spec (n + 1) n (by omega)

theorem intToStr_chars (z : Int) :
    ∀ c ∈ intToStr z, isPySpace c = false ∧ c ≠ ':' ∧ c ≠ '|' := by
  obtain ⟨_, hprops, _⟩ := natToDigits_spec z.natAbs
  intro c hc
  unfold intToStr at hc
  by_cases hz : z < 0
  · rw [if_pos hz] at hc
    rcases List.mem_cons.mp hc with rfl | hmem
    · exact ⟨by decide, by decide, by decide⟩
    · obtain ⟨_, hsp, h1, h2, _, _⟩ := hprops c hmem
      exact ⟨hsp, h1, h2⟩
  · rw [if_neg hz] at hc
    obtain ⟨_, hsp, h1, h2, _, _⟩ := hprops c hc
    exact ⟨hsp, h1, h2⟩

theorem dropWhile_eq_self_of_head (s : List Char)
    (h : ∀ c, s.head? = some c → isPySpace c = false) :
    s.dropWhile isPySpace = s := by
  cases s with
  | nil => rfl
  | cons c t =>
    have hc := h c rfl
    simp [List.dropWhile_cons, hc]

theorem pyStrip_eq_self (s : List Char)
    (h1 : ∀ c, s.head? = some c → isPySpace c = false)
    (h2 : ∀ c, s.getLast? = some c → isPySpace c = false) :
    pyStrip s = s := by
  unfold pyStrip
  rw [dropWhile_eq_self_of_head s h1]
  rw [dropWhile_eq_self_of_head s.reverse
    (fun c hc => h2 c (by rwa [List.head?_reverse] at hc))]
  exact List.reverse_reverse s

theorem pyStrip_eq_self_of_mem (s : List Char)
    (h : ∀ c ∈ s, isPySpace c = false) :
    pyStrip s = s :=
  pyStrip_eq_self s
    (fun c hc => h c (List.mem_of_mem_head? (by rw [hc]; rfl)))
    (fun c hc => h c (List.mem_of_mem_getLast? (by rw [hc]; rfl)))

/-- Round trip `int(str(z)) = z`: the decoder's integer coercion recovers any integer
value rendered by the encoder. -/
theorem pyParseInt_intToStr (z : Int) : pyParseInt (intToStr z) = some z := by
  obtain ⟨hne, hprops, hval⟩ := natToDigits_spec z.natAbs
  have hall : (natToDigits z.natAbs).all Char.isDigit = true :=
    List.all_eq_true.mpr fun c hc => (hprops c hc).1
  by_cases hz : z < 0
  · have hiz : intToStr z = '-' :: natToDigits z.natAbs := by
      rw [intToStr, if_pos hz]
    have hstrip : pyStrip ('-' :: natToDigits z.natAbs) = '-' :: natToDigits z.natAbs := by
      apply pyStrip_eq_self_of_mem
      intro c hc
      rcases List.mem_cons.mp hc with rfl | hmem
      · decide
      · exact (hprops c hmem).2.1
    simp only [pyParseInt, hiz, hstrip]
    rw [if_pos trivial, if_pos ⟨hne, hall⟩, hval]
    congr 1
    omega
  · have hiz : intToStr z = natToDigits z.natAbs := by
      rw [intToStr, if_neg hz]
    have hstrip : pyStrip (natToDigits z.natAbs) = natToDigits z.natAbs :=
      pyStrip_eq_self_of_mem _ (fun c hc => (hprops c hc).2.1)
    cases hnd : natToDigits z.natAbs with
    | nil => exact absurd hnd hne
    | cons c rest =>
      have hc := hprops c (by rw [hnd]; exact List.mem_cons_self _ _)
      have hallc : (c :: rest).all Char.isDigit = true := by rw [← hnd]; exact hall
      have hvalc : natOfDigits (c :: rest) = z.natAbs := by rw [← hnd]; exact hval
      have hstrip' : pyStrip (c :: rest) = c :: rest := by rw [← hnd]; exact hstrip
      simp only [pyParseInt, hiz, hnd, hstrip']
      rw [if_neg hc.2.2.2.2.1, if_neg hc.2.2.2.2.2, if_pos hallc, hvalc]
      congr 1
      omega

theorem coerceVal_intToStr (z : Int) :
    coerceVal (intToStr z) = SyncVal.int z := by
  rw [coerceVal, pyParseInt_intToStr]

end BlueBuzzah

namespace BlueBuzzah

theorem breakAtChar_not_mem (sep : Char) (a : List Char) (h : sep ∉ a) :
    breakAtChar sep a = none := by
  induction a with
  | nil => rfl
  | cons c t ih =>
    have hc : c ≠ sep := fun hcs => h (hcs ▸ List.mem_cons_self c t)
    have ht : sep ∉ t := fun hm => h (List.mem_cons_of_mem _ hm)
    simp [breakAtChar, hc, ih ht]

theorem breakAtChar_append (sep : Char) (a b : List Char) (h : sep ∉ a) :
    breakAtChar sep (a ++ sep :: b) = some (a, b) := by
  induction a with
  | nil => simp [breakAtChar]
  | cons c t ih =>
    have hc : c ≠ sep := fun hcs => h (hcs ▸ List.mem_cons_self c t)
    have ht : sep ∉ t := fun hm => h (List.mem_cons_of_mem _ hm)
    simp [breakAtChar, hc, ih ht]

theorem pySplitMax2_encoded (cmd dstr : List Char) (hcmd : ':' ∉ cmd) :
    pySplitMax2 ':' (("SYNC:").data ++ cmd ++ ':' :: dstr)
      = [("SYNC").data, cmd, dstr] := by
  have hshape : ("SYNC:").data ++ cmd ++ ':' :: dstr
      = ("SYNC").data ++ ':' :: (cmd ++ ':' :: dstr) := rfl
  rw [hshape]
  simp only [pySplitMax2,
    breakAtChar_append ':' (("SYNC").data) (cmd ++ ':' :: dstr) (by decide),
    breakAtChar_append ':' cmd dstr hcmd]

theorem parseSyncMessage_send (cmd dstr : List Char) (hcmd : ':' ∉ cmd)
    (hstrip : pyStrip (("SYNC:").data ++ cmd ++ ':' :: dstr)
      = ("SYNC:").data ++ cmd ++ ':' :: dstr) :
    parseSyncMessage (("SYNC:").data ++ cmd ++ ':' :: dstr) = some (cmd, dstr) := by
  simp only [parseSyncMessage, hstrip, pySplitMax2_encoded cmd dstr hcmd]

theorem getLast?_syncMsg (cmd dstr : List Char) :
    (("SYNC:").data ++ cmd ++ ':' :: dstr).getLast? = (':' :: dstr).getLast? :=
  List.getLast?_append_cons (("SYNC:").data ++ cmd) ':' dstr

theorem pyStrip_syncMsg (cmd dstr : List Char)
    (h : ∀ c ∈ dstr, isPySpace c = false) :
    pyStrip (("SYNC:").data ++ cmd ++ ':' :: dstr)
      = ("SYNC:").data ++ cmd ++ ':' :: dstr := by
  apply pyStrip_eq_self
  · intro c hc
    have hh : (("SYNC:").data ++ cmd ++ ':' :: dstr).head? = some 'S' := rfl
    rw [hh] at hc
    injection hc with h2
    subst h2
    decide
  · intro c hc
    rw [getLast?_syncMsg] at hc
    have hmem : c ∈ ':' :: dstr :=
      List.mem_of_mem_getLast? (by rw [hc]; rfl)
    rcases List.mem_cons.mp hmem with rfl | hmem2
    · decide
    · exact h c hmem2

theorem mem_pyJoinPipe (parts : List (List Char)) :
    ∀ c ∈ pyJoinPipe parts, c = '|' ∨ ∃ p ∈ parts, c ∈ p := by
  induction parts with
  | nil => intro c hc; simp [pyJoinPipe] at hc
  | cons p ps ih =>
    intro c hc
    cases ps with
    | nil =>
      have hp : pyJoinPipe [p] = p := rfl
      rw [hp] at hc
      exact Or.inr ⟨p, List.mem_cons_self _ _, hc⟩
    | cons q qs =>
      have hp : pyJoinPipe (p :: q :: qs) = p ++ '|' :: pyJoinPipe (q :: qs) := rfl
      rw [hp] at hc
      rcases List.mem_append.mp hc with h1 | h2
      · exact Or.inr ⟨p, List.mem_cons_self _ _, h1⟩
      · rcases List.mem_cons.mp h2 with rfl | h3
        · exact Or.inl rfl
        · rcases ih c h3 with h4 | ⟨r, hr, hcr⟩
          · exact Or.inl h4
          · exact Or.inr ⟨r, List.mem_cons_of_mem _ hr, hcr⟩

theorem mem_dataParts (data : List (List Char × SyncVal)) :
    ∀ p ∈ dataParts data, ∃ kv ∈ data, p = kv.1 ∨ p = pyStr kv.2 := by
  induction data with
  | nil => intro p hp; simp [dataParts] at hp
  | cons kv rest ih =>
    intro p hp
    have hshape : dataParts (kv :: rest) = kv.1 :: pyStr kv.2 :: dataParts rest := rfl
    rw [hshape] at hp
    rcases List.mem_cons.mp hp with rfl | hp2
    · exact ⟨kv, List.mem_cons_self _ _, Or.inl rfl⟩
    · rcases List.mem_cons.mp hp2 with rfl | hp3
      · exact ⟨kv, List.mem_cons_self _ _, Or.inr rfl⟩
      · obtain ⟨kv', hkv', hor⟩ := ih p hp3
        exact ⟨kv', List.mem_cons_of_mem _ hkv', hor⟩

theorem splitOn_pyJoinPipe (parts : List (List Char)) (hne : parts ≠ [])
    (h : ∀ p ∈ parts, ('|') ∉ p) :
    (pyJoinPipe parts).splitOn '|' = parts := by
  induction parts with
  | nil => exact absurd rfl hne
  | cons p ps ih =>
    cases ps with
    | nil =>
      show p.splitOn '|' = [p]
      rw [List.splitOn]
      apply List.splitOnP_eq_single
      intro x hx
      have hxne : x ≠ '|' := fun he => h p (List.mem_cons_self _ _) (he ▸ hx)
      simp [hxne]
    | cons q qs =>
      have hp : pyJoinPipe (p :: q :: qs) = p ++ '|' :: pyJoinPipe (q :: qs) := rfl
      have hxs : ∀ x ∈ p, ¬((x == '|') = true) := by
        intro x hx
        have hxne : x ≠ '|' := fun he => h p (List.mem_cons_self _ _) (he ▸ hx)
        simp [hxne]
      rw [hp, List.splitOn,
        List.splitOnP_first (fun x => x == '|') p hxs '|' (by simp) (pyJoinPipe (q :: qs))]
      have hrest := ih (by simp) (fun r hr => h r (List.mem_cons_of_mem _ hr))
      rw [List.splitOn] at hrest
      rw [hrest]

theorem dictSet_append (d : List (List Char × SyncVal)) (k : List Char) (v : SyncVal)
    (h : ∀ kv ∈ d, kv.1 ≠ k) : dictSet d k v = d ++ [(k, v)] := by
  induction d with
  | nil => rfl
  | cons kv rest ih =>
    obtain ⟨k', v'⟩ := kv
    have hk : k' ≠ k := h (k', v') (List.mem_cons_self _ _)
    simp only [dictSet, if_neg hk]
    rw [ih (fun kv' hkv' => h kv' (List.mem_cons_of_mem _ hkv'))]
    rfl

theorem parsePairs_dataParts (data : List (List Char × SyncVal)) :
    ∀ acc : List (List Char × SyncVal),
      (data.map Prod.fst).Nodup →
      (∀ kv ∈ data, ∀ kv' ∈ acc, kv'.1 ≠ kv.1) →
      parsePairs (dataParts data) acc
        = acc ++ data.map (fun kv => (kv.1, coerceVal (pyStr kv.2))) := by
  induction data with
  | nil =>
    intro acc _ _
    simp [dataParts, parsePairs]
  | cons kv rest ih =>
    intro acc hnodup hdisj
    have hshape : dataParts (kv :: rest) = kv.1 :: pyStr kv.2 :: dataParts rest := rfl
    rw [hshape]
    simp only [parsePairs]
    rw [dictSet_append acc kv.1 (coerceVal (pyStr kv.2))
      (fun kv' hkv' => hdisj kv (List.mem_cons_self _ _) kv' hkv')]
    have hnodup2 : (rest.map Prod.fst).Nodup := by
      rw [List.map_cons] at hnodup
      exact (List.nodup_cons.mp hnodup).2
    have hknotin : kv.1 ∉ rest.map Prod.fst := by
      rw [List.map_cons] at hnodup
      exact (List.nodup_cons.mp hnodup).1
    have hdisj2 : ∀ kv2 ∈ rest, ∀ kv' ∈ acc ++ [(kv.1, coerceVal (pyStr kv.2))],
        kv'.1 ≠ kv2.1 := by
      intro kv2 hkv2 kv' hkv'
      rcases List.mem_append.mp hkv' with h1 | h2
      · exact hdisj kv2 (List.mem_cons_of_mem _ hkv2) kv' h1
      · rw [List.mem_singleton] at h2
        subst h2
        intro heq
        exact hknotin (heq ▸ List.mem_map_of_mem Prod.fst hkv2)
    rw [ih (acc ++ [(kv.1, coerceVal (pyStr kv.2))]) hnodup2 hdisj2]
    simp

theorem parseData_encodeData (data : List (List Char × SyncVal))
    (hnodup : (data.map Prod.fst).Nodup)
    (hkeys : ∀ kv ∈ data, ('|') ∉ kv.1)
    (hvals : ∀ kv ∈ data, ('|') ∉ pyStr kv.2) :
    parseData (encodeData data)
      = data.map (fun kv => (kv.1, coerceVal (pyStr kv.2))) := by
  cases data with
  | nil => rfl
  | cons kv rest =>
    have hne : encodeData (kv :: rest) ≠ [] := by
      show pyJoinPipe (kv.1 :: pyStr kv.2 :: dataParts rest) ≠ []
      simp [pyJoinPipe]
    rw [parseData, if_neg hne]
    have hparts : ∀ p ∈ dataParts (kv :: rest), ('|') ∉ p := by
      intro p hp
      obtain ⟨kv', hkv', hor⟩ := mem_dataParts (kv :: rest) p hp
      rcases hor with rfl | rfl
      · exact hkeys kv' hkv'
      · exact hvals kv' hkv'
    rw [encodeData, splitOn_pyJoinPipe (dataParts (kv :: rest)) (by
      have : dataParts (kv :: rest) = kv.1 :: pyStr kv.2 :: dataParts rest := rfl
      rw [this]; simp) hparts]
    exact parsePairs_dataParts (kv :: rest) [] hnodup
      (by intro kv2 _ kv' hkv'; simp at hkv')

end BlueBuzzah

namespace BlueBuzzah

/-- Claim C5, amended: For every command type containing no `':'` and every
data map with distinct keys whose keys and stringified values contain no
`'|'`, `':'`, EOT, or whitespace characters, encoding on the PRIMARY as
`"SYNC:<command_type>:<key|val|...>"` and parsing in the SECONDARY's SYNC
handler yields the original data map with every value whose string
representation parses as an integer coerced to an integer (in particular
every integer value round-trips to itself). -/
theorem sync_serialise_deserialise_roundtrip (cmd : List Char)
    (data : List (List Char × SyncVal))
    (hcmd : (':') ∉ cmd)
    (hnodup : (data.map Prod.fst).Nodup)
    (hkeys : ∀ kv ∈ data, ∀ c ∈ kv.1,
      c ≠ '|' ∧ c ≠ ':' ∧ c ≠ '\x04' ∧ isPySpace c = false)
    (hvals : ∀ kv ∈ data, ∀ c ∈ pyStr kv.2,
      c ≠ '|' ∧ c ≠ ':' ∧ c ≠ '\x04' ∧ isPySpace c = false) :
    decodeSyncMessage (send_sync_command cmd data)
      = some (cmd, data.map (fun kv => (kv.1, coerceVal (pyStr kv.2)))) ∧
    ∀ n : Int, coerceVal (pyStr (SyncVal.int n)) = SyncVal.int n := by
  constructor
  · have hdnospace : ∀ c ∈ encodeData data, isPySpace c = false := by
      intro c hc
      rw [encodeData] at hc
      rcases mem_pyJoinPipe (dataParts data) c hc with rfl | ⟨p, hp, hcp⟩
      · decide
      · obtain ⟨kv, hkv, hor⟩ := mem_dataParts data p hp
        rcases hor with rfl | rfl
        · exact (hkeys kv hkv c hcp).2.2.2
        · exact (hvals kv hkv c hcp).2.2.2
    have hstrip := pyStrip_syncMsg cmd (encodeData data) hdnospace
    have hparse := parseSyncMessage_send cmd (encodeData data) hcmd hstrip
    have hdata := parseData_encodeData data hnodup
      (fun kv hkv hm => ((hkeys kv hkv _ hm).1 rfl).elim)
      (fun kv hkv hm => ((hvals kv hkv _ hm).1 rfl).elim)
    simp only [decodeSyncMessage, send_sync_command, hparse, hdata]
  · intro n
    exact coerceVal_intToStr n

theorem sync_serialise_deserialise_roundtrip_witness :
    ((':') ∉ (("EXECUTE_BUZZ").data) ∧
     (([(("seq").data, SyncVal.int 7),
        (("mode").data, SyncVal.str (("run").data))].map Prod.fst).Nodup)) ∧
    decodeSyncMessage (send_sync_command (("EXECUTE_BUZZ").data)
        [(("seq").data, SyncVal.int 7),
         (("mode").data, SyncVal.str (("run").data))])
      = some ((("EXECUTE_BUZZ").data),
        [(("seq").data, SyncVal.int 7),
         (("mode").data, SyncVal.str (("run").data))].map
          (fun kv => (kv.1, coerceVal (pyStr kv.2)))) := by
  refine ⟨⟨by decide, by decide⟩, ?_⟩
  exact (sync_serialise_deserialise_roundtrip (("EXECUTE_BUZZ").data)
    [(("seq").data, SyncVal.int 7), (("mode").data, SyncVal.str (("run").data))]
    (by decide) (by decide) (by decide) (by decide)).1

/-- Claim C5, counterexample: The claim as stated fails: (a) a value whose
string representation ends in whitespace (here `"a "`) contains no `'|'`,
`':'` or EOT, yet the decoder's `message.strip()` removes the trailing
whitespace, so the decoded map differs from the original; (b) a command
type containing `':'` (unrestricted in the claim) shifts the
`split(':', 2)` boundary and corrupts the decoded data map. -/
theorem sync_serialise_deserialise_counterexample :
    ((([(("k").data, SyncVal.str (("a ").data))].map Prod.fst).Nodup) ∧
      (∀ kv ∈ [(("k").data, SyncVal.str (("a ").data))],
        (∀ c ∈ kv.1, c ≠ '|' ∧ c ≠ ':' ∧ c ≠ '\x04') ∧
        (∀ c ∈ pyStr kv.2, c ≠ '|' ∧ c ≠ ':' ∧ c ≠ '\x04')) ∧
      decodeSyncMessage (send_sync_command (("CMD").data)
          [(("k").data, SyncVal.str (("a ").data))])
        ≠ some ((("CMD").data),
          [(("k").data, SyncVal.str (("a ").data))].map
            (fun kv => (kv.1, coerceVal (pyStr kv.2))))) ∧
    ((∀ kv ∈ [(("k").data, SyncVal.int 1)],
        (∀ c ∈ kv.1, c ≠ '|' ∧ c ≠ ':' ∧ c ≠ '\x04') ∧
        (∀ c ∈ pyStr kv.2, c ≠ '|' ∧ c ≠ ':' ∧ c ≠ '\x04')) ∧
      decodeSyncMessage (send_sync_command (("A:B").data)
          [(("k").data, SyncVal.int 1)])
        ≠ some ((("A:B").data),
          [(("k").data, SyncVal.int 1)].map
            (fun kv => (kv.1, coerceVal (pyStr kv.2))))) := by
  refine ⟨⟨by decide, by decide, by decide⟩, by decide, by decide⟩

end BlueBuzzah

namespace BlueBuzzah

theorem parse_execute_buzz_seq (seq : Int) (hseq : 0 ≤ seq) :
    parseSyncMessage (("SYNC:EXECUTE_BUZZ:seq|").data ++ intToStr seq)
      = some ((("EXECUTE_BUZZ").data), ("seq|").data ++ intToStr seq) ∧
    parseData (("seq|").data ++ intToStr seq)
      = [(("seq").data, SyncVal.int seq)] := by
  obtain ⟨hne, hprops, _⟩ := natToDigits_spec seq.natAbs
  have hiz : intToStr seq = natToDigits seq.natAbs := by
    rw [intToStr, if_neg (by omega)]
  have hshape : ("SYNC:EXECUTE_BUZZ:seq|").data ++ intToStr seq
      = ("SYNC:").data ++ ("EXECUTE_BUZZ").data ++ ':' ::
          (("seq|").data ++ intToStr seq) := rfl
  constructor
  · rw [hshape]
    apply parseSyncMessage_send
    · decide
    · apply pyStrip_syncMsg
      intro c hc
      rcases List.mem_append.mp hc with h1 | h2
      · have hlit : c ∈ ['s', 'e', 'q', '|'] := h1
        fin_cases hlit <;> decide
      · rw [hiz] at h2
        exact (hprops c h2).2.1
  · have hne2 : ("seq|").data ++ intToStr seq ≠ [] := by simp
    rw [parseData, if_neg hne2]
    have hsplitShape : ("seq|").data ++ intToStr seq
        = ("seq").data ++ '|' :: intToStr seq := rfl
    have hxs : ∀ x ∈ ("seq").data, ¬((x == '|') = true) := by decide
    rw [hsplitShape, List.splitOn,
      List.splitOnP_first (fun x => x == '|') (("seq").data) hxs '|' (by simp)
        (intToStr seq)]
    have hdig : (intToStr seq).splitOnP (fun x => x == '|') = [intToStr seq] := by
      apply List.splitOnP_eq_single
      intro x hx
      rw [hiz] at hx
      have := (hprops x hx).2.2.2.1
      simp [this]
    rw [hdig]
    show parsePairs [("seq").data, intToStr seq] [] = _
    simp only [parsePairs, dictSet, coerceVal, pyParseInt_intToStr]

theorem handle_execute_buzz_seq_eq (debug : Bool) (t : Int)
    (st : SecondarySyncState) (seq : Int) (hseq : 0 ≤ seq) :
    handle_sync_command debug t st (("SYNC:EXECUTE_BUZZ:seq|").data ++ intToStr seq)
      = (⟨seq, if st.last_received_seq + 1 < seq ∧ 0 ≤ st.last_received_seq
                then st.missed_commands + (seq - st.last_received_seq - 1)
                else st.missed_commands⟩,
         SyncEffect.touchSyncTimestamp ::
         (if st.last_received_seq + 1 < seq ∧ 0 ≤ st.last_received_seq
            then [SyncEffect.warnSeqGap (seq - st.last_received_seq - 1)] else []) ++
         [SyncEffect.activate (SyncVal.int 0) (SyncVal.int 100),
          SyncEffect.activate (SyncVal.int 0) (SyncVal.int 100),
          SyncEffect.recordSample 0]) := by
  obtain ⟨hparse, hdata⟩ := parse_execute_buzz_seq seq hseq
  simp only [handle_sync_command, hparse, hdata]
  simp [dictGetD, dictGet, pyTruthy, hseq]

end BlueBuzzah

namespace BlueBuzzah

/-- Claim C2: For every EXECUTE_BUZZ message carrying `seq ≥ 0` (wire payloads
are non-negative), the SECONDARY's handler increases `missed_commands` by
`seq - last_seen_seq - 1` exactly when `seq > last_seen_seq + 1` and
`last_seen_seq ≥ 0`, logs exactly one gap warning in that case (none
otherwise), and then sets `last_seen_seq = seq`; in particular, receiving
`seq=0` and then `seq=3` from the boot state increases `missed_commands`
by 2 with exactly one warning. -/
theorem execute_buzz_seq_gap_detection (debug : Bool) (t : Int)
    (st : SecondarySyncState) (seq : Int) (hseq : 0 ≤ seq) :
    ((handle_sync_command debug t st
        (("SYNC:EXECUTE_BUZZ:seq|").data ++ intToStr seq)).1.last_received_seq
      = seq) ∧
    ((handle_sync_command debug t st
        (("SYNC:EXECUTE_BUZZ:seq|").data ++ intToStr seq)).1.missed_commands
      = if st.last_received_seq + 1 < seq ∧ 0 ≤ st.last_received_seq
          then st.missed_commands + (seq - st.last_received_seq - 1)
          else st.missed_commands) ∧
    (((handle_sync_command debug t st
        (("SYNC:EXECUTE_BUZZ:seq|").data ++ intToStr seq)).2.filter
          isSeqGapWarning).length
      = if st.last_received_seq + 1 < seq ∧ 0 ≤ st.last_received_seq
          then 1 else 0) ∧
    ((handle_sync_command debug t
        (handle_sync_command debug t initSecondarySyncState
          (("SYNC:EXECUTE_BUZZ:seq|").data ++ intToStr 0)).1
        (("SYNC:EXECUTE_BUZZ:seq|").data ++ intToStr 3)).1.missed_commands = 2 ∧
     ((handle_sync_command debug t
        (handle_sync_command debug t initSecondarySyncState
          (("SYNC:EXECUTE_BUZZ:seq|").data ++ intToStr 0)).1
        (("SYNC:EXECUTE_BUZZ:seq|").data ++ intToStr 3)).2.filter
          isSeqGapWarning).length = 1) := by
  rw [handle_execute_buzz_seq_eq debug t st seq hseq,
    handle_execute_buzz_seq_eq debug t initSecondarySyncState 0 (by norm_num),
    handle_execute_buzz_seq_eq debug t _ 3 (by norm_num)]
  refine ⟨rfl, rfl, ?_, ?_, ?_⟩
  · split_ifs <;> simp [isSeqGapWarning]
  · simp [initSecondarySyncState]
  · simp [initSecondarySyncState, isSeqGapWarning]

theorem execute_buzz_seq_gap_detection_witness :
    ((0 : Int) ≤ 3) ∧
    ((handle_sync_command false 0 ⟨0, 0⟩
        (("SYNC:EXECUTE_BUZZ:seq|").data ++ intToStr 3)).1.last_received_seq
      = 3) ∧
    ((handle_sync_command false 0 ⟨0, 0⟩
        (("SYNC:EXECUTE_BUZZ:seq|").data ++ intToStr 3)).1.missed_commands
      = if (0 : Int) + 1 < 3 ∧ (0 : Int) ≤ 0 then 0 + (3 - 0 - 1) else 0) ∧
    (((handle_sync_command false 0 ⟨0, 0⟩
        (("SYNC:EXECUTE_BUZZ:seq|").data ++ intToStr 3)).2.filter
          isSeqGapWarning).length
      = if (0 : Int) + 1 < 3 ∧ (0 : Int) ≤ 0 then 1 else 0) ∧
    ((handle_sync_command false 0
        (handle_sync_command false 0 initSecondarySyncState
          (("SYNC:EXECUTE_BUZZ:seq|").data ++ intToStr 0)).1
        (("SYNC:EXECUTE_BUZZ:seq|").data ++ intToStr 3)).1.missed_commands = 2 ∧
     ((handle_sync_command false 0
        (handle_sync_command false 0 initSecondarySyncState
          (("SYNC:EXECUTE_BUZZ:seq|").data ++ intToStr 0)).1
        (("SYNC:EXECUTE_BUZZ:seq|").data ++ intToStr 3)).2.filter
          isSeqGapWarning).length = 1) := by
  refine ⟨by norm_num, ?_⟩
  exact execute_buzz_seq_gap_detection false 0 ⟨0, 0⟩ 3 (by norm_num)

end BlueBuzzah

namespace BlueBuzzah

/-- Claim C4, amended: A SYNC message with an unknown CMD is dropped without
aborting the receive loop: the handler returns normally, leaves the
command-loss state untouched and emits no actuator, state-machine, engine,
heartbeat or telemetry effect (only the last-SYNC-command watchdog
timestamp refresh, plus a debug log line when `DEBUG_ENABLED`).  A message
with missing required DATA keys also does not abort the loop, but an
EXECUTE_BUZZ missing `left_finger`, `right_finger` and `amplitude` is NOT
dropped: the handler substitutes the defaults 0/0/100 and activates both
actuators. -/
theorem sync_unknown_cmd_dropped :
    (∀ (debug : Bool) (t : Int) (st : SecondarySyncState)
        (msg cmd dataStr : List Char),
      parseSyncMessage msg = some (cmd, dataStr) →
      cmd ∉ knownCommands →
      handle_sync_command debug t st msg =
        (st, SyncEffect.touchSyncTimestamp ::
          (if debug then [SyncEffect.logUnknownCommand] else []))) ∧
    (handle_sync_command true 0 initSecondarySyncState
        (("SYNC:EXECUTE_BUZZ:").data) =
      (initSecondarySyncState,
       [SyncEffect.touchSyncTimestamp,
        SyncEffect.activate (SyncVal.int 0) (SyncVal.int 100),
        SyncEffect.activate (SyncVal.int 0) (SyncVal.int 100),
        SyncEffect.recordSample 0])) := by
  constructor
  · intro debug t st msg cmd dataStr hparse hunk
    have h1 : cmd ≠ ("EXECUTE_BUZZ").data := fun h => hunk (by rw [h]; decide)
    have h2 : cmd ≠ ("DEACTIVATE").data := fun h => hunk (by rw [h]; decide)
    have h3 : cmd ≠ ("START_SESSION").data := fun h => hunk (by rw [h]; decide)
    have h4 : cmd ≠ ("PAUSE_SESSION").data := fun h => hunk (by rw [h]; decide)
    have h5 : cmd ≠ ("RESUME_SESSION").data := fun h => hunk (by rw [h]; decide)
    have h6 : cmd ≠ ("STOP_SESSION").data := fun h => hunk (by rw [h]; decide)
    have h7 : cmd ≠ ("HEARTBEAT").data := fun h => hunk (by rw [h]; decide)
    simp only [handle_sync_command, hparse, if_neg h1, if_neg h2, if_neg h3,
      if_neg h4, if_neg h5, if_neg h6, if_neg h7]
    rfl
  · decide

/-- Claim C4, counterexample: `"SYNC:EXECUTE_BUZZ:"` carries none of the
required keys (`left_finger`, `right_finger`, `amplitude`, `seq`,
`timestamp`), yet the handler activates both actuators (finger 0 at
amplitude 100) instead of dropping the message, contradicting
"does not activate any actuator". -/
theorem sync_missing_keys_counterexample :
    (parseSyncMessage (("SYNC:EXECUTE_BUZZ:").data)
        = some ((("EXECUTE_BUZZ").data), []) ∧
     dictGet (parseData []) (("left_finger").data) = none ∧
     dictGet (parseData []) (("right_finger").data) = none ∧
     dictGet (parseData []) (("amplitude").data) = none) ∧
    SyncEffect.activate (SyncVal.int 0) (SyncVal.int 100) ∈
      (handle_sync_command true 0 initSecondarySyncState
        (("SYNC:EXECUTE_BUZZ:").data)).2 := by
  refine ⟨⟨by decide, by decide, by decide, by decide⟩, by decide⟩

theorem sync_unknown_cmd_dropped_witness :
    (parseSyncMessage (("SYNC:BOGUS:x|1").data)
        = some ((("BOGUS").data), ("x|1").data) ∧
     (("BOGUS").data) ∉ knownCommands) ∧
    handle_sync_command true 0 ⟨5, 7⟩ (("SYNC:BOGUS:x|1").data) =
      (⟨5, 7⟩, SyncEffect.touchSyncTimestamp ::
        (if true then [SyncEffect.logUnknownCommand] else [])) := by
  refine ⟨⟨by decide, by decide⟩, ?_⟩
  exact sync_unknown_cmd_dropped.1 true 0 ⟨5, 7⟩ (("SYNC:BOGUS:x|1").data)
    (("BOGUS").data) (("x|1").data) (by decide) (by decide)

end BlueBuzzah

namespace BlueBuzzah

/-- Claim C3: When the SECONDARY heartbeat watchdog trips: the actuator
emergency stop is the very first action, strictly before the state machine
is forced to CONNECTION_LOST (trace position 1) and before
`last_heartbeat_received` is cleared (position 3, after the LED update);
then at most 3 reconnection attempts run, every scan uses a 10 s window,
scans and 2 s delays alternate (a delay between consecutive attempts); on a
successful reconnect the state is forced to READY (and never to IDLE), and
after all 3 attempts fail it is forced to IDLE (and never to READY). -/
theorem heartbeat_timeout_recovery (s0 s1 s2 : Bool) :
    ((handle_heartbeat_timeout s0 s1 s2).head? = some RecoveryEvent.emergencyStop) ∧
    ((handle_heartbeat_timeout s0 s1 s2).get? 1
      = some (RecoveryEvent.forceState TherapyState.CONNECTION_LOST)) ∧
    ((handle_heartbeat_timeout s0 s1 s2).get? 3 = some RecoveryEvent.clearHeartbeat) ∧
    (((handle_heartbeat_timeout s0 s1 s2).filter isScanEvent).length ≤ 3) ∧
    ((handle_heartbeat_timeout s0 s1 s2).filter
        (fun e => isScanEvent e || isSleepEvent e)
      = if s0 then [RecoveryEvent.scan 10]
        else if s1 then
          [RecoveryEvent.scan 10, RecoveryEvent.sleep 2, RecoveryEvent.scan 10]
        else if s2 then
          [RecoveryEvent.scan 10, RecoveryEvent.sleep 2, RecoveryEvent.scan 10,
           RecoveryEvent.sleep 2, RecoveryEvent.scan 10]
        else
          [RecoveryEvent.scan 10, RecoveryEvent.sleep 2, RecoveryEvent.scan 10,
           RecoveryEvent.sleep 2, RecoveryEvent.scan 10, RecoveryEvent.sleep 2]) ∧
    ((handle_heartbeat_timeout s0 s1 s2).contains
        (RecoveryEvent.forceState TherapyState.READY) = (s0 || s1 || s2)) ∧
    ((handle_heartbeat_timeout s0 s1 s2).contains
        (RecoveryEvent.forceState TherapyState.IDLE) = !(s0 || s1 || s2)) := by
  cases s0 <;> cases s1 <;> cases s2 <;> decide

theorem primary_boot_poll_spec (fuel : Nat) :
    ∀ (i : Nat) (secAt phoneAt : Nat → Bool) (sec phone : Bool),
      ((primary_boot_poll fuel i secAt phoneAt sec phone).1 = true ↔
        (sec = true ∨ ∃ k, i ≤ k ∧ k < i + fuel ∧ secAt k = true)) ∧
      ((primary_boot_poll fuel i secAt phoneAt sec phone).2 = true ↔
        (phone = true ∨ ∃ j, i ≤ j ∧ j < i + fuel ∧ phoneAt j = true ∧
          (sec = true ∨ ∃ k, i ≤ k ∧ k ≤ j ∧ secAt k = true))) := by
  induction fuel with
  | zero =>
    intro i secAt phoneAt sec phone
    constructor
    · show sec = true ↔ _
      constructor
      · exact Or.inl
      · rintro (h | ⟨k, h1, h2, _⟩)
        · exact h
        · omega
    · show phone = true ↔ _
      constructor
      · exact Or.inl
      · rintro (h | ⟨j, h1, h2, _⟩)
        · exact h
        · omega
  | succ fuel ih =>
    intro i secAt phoneAt sec phone
    cases hsec : sec
    case true =>
      cases hphone : phone
      case true =>
        have hstep : primary_boot_poll (fuel + 1) i secAt phoneAt true true
            = (true, true) := by
          simp [primary_boot_poll]
        rw [hstep]
        exact ⟨by simp, by simp⟩
      case false =>
        cases hpAt : phoneAt i
        case true =>
          have hstep : primary_boot_poll (fuel + 1) i secAt phoneAt true false
              = (true, true) := by
            simp [primary_boot_poll, hpAt]
          rw [hstep]
          refine ⟨by simp, ?_⟩
          constructor
          · intro _
            exact Or.inr ⟨i, le_refl i, by omega, hpAt, Or.inl rfl⟩
          · intro _
            rfl
        case false =>
          have hstep : primary_boot_poll (fuel + 1) i secAt phoneAt true false
              = primary_boot_poll fuel (i + 1) secAt phoneAt true false := by
            simp [primary_boot_poll, hpAt]
          rw [hstep]
          obtain ⟨ih1, ih2⟩ := ih (i + 1) secAt phoneAt true false
          constructor
          · rw [ih1]
            constructor
            · intro _
              exact Or.inl rfl
            · intro _
              exact Or.inl rfl
          · rw [ih2]
            constructor
            · rintro (h | ⟨j, h1, h2, h3, _⟩)
              · simp at h
              · exact Or.inr ⟨j, by omega, by omega, h3, Or.inl rfl⟩
            · rintro (h | ⟨j, h1, h2, h3, _⟩)
              · simp at h
              · have hj : j ≠ i := by
                  intro he
                  rw [he, hpAt] at h3
                  simp at h3
                exact Or.inr ⟨j, by omega, by omega, h3, Or.inl rfl⟩
    case false =>
      cases hsAt : secAt i
      case true =>
        cases hphone : phone
        case true =>
          have hstep : primary_boot_poll (fuel + 1) i secAt phoneAt false true
              = (true, true) := by
            simp [primary_boot_poll, hsAt]
          rw [hstep]
          refine ⟨?_, by simp⟩
          constructor
          · intro _
            exact Or.inr ⟨i, le_refl i, by omega, hsAt⟩
          · intro _
            rfl
        case false =>
          cases hpAt : phoneAt i
          case true =>
            have hstep : primary_boot_poll (fuel + 1) i secAt phoneAt false false
                = (true, true) := by
              simp [primary_boot_poll, hsAt, hpAt]
            rw [hstep]
            constructor
            · constructor
              · intro _
                exact Or.inr ⟨i, le_refl i, by omega, hsAt⟩
              · intro _
                rfl
            · constructor
              · intro _
                exact Or.inr ⟨i, le_refl i, by omega, hpAt,
                  Or.inr ⟨i, le_refl i, le_refl i, hsAt⟩⟩
              · intro _
                rfl
          case false =>
            have hstep : primary_boot_poll (fuel + 1) i secAt phoneAt false false
                = primary_boot_poll fuel (i + 1) secAt phoneAt true false := by
              simp [primary_boot_poll, hsAt, hpAt]
            rw [hstep]
            obtain ⟨ih1, ih2⟩ := ih (i + 1) secAt phoneAt true false
            constructor
            · rw [ih1]
              constructor
              · intro _
                exact Or.inr ⟨i, le_refl i, by omega, hsAt⟩
              · intro _
                exact Or.inl rfl
            · rw [ih2]
              constructor
              · rintro (h | ⟨j, h1, h2, h3, _⟩)
                · simp at h
                · exact Or.inr ⟨j, by omega, by omega, h3,
                    Or.inr ⟨i, by omega, by omega, hsAt⟩⟩
              · rintro (h | ⟨j, h1, h2, h3, _⟩)
                · simp at h
                · have hj : j ≠ i := by
                    intro he
                    rw [he, hpAt] at h3
                    simp at h3
                  exact Or.inr ⟨j, by omega, by omega, h3, Or.inl rfl⟩
      case false =>
        have hstep : primary_boot_poll (fuel + 1) i secAt phoneAt false phone
            = primary_boot_poll fuel (i + 1) secAt phoneAt false phone := by
          simp [primary_boot_poll, hsAt]
        rw [hstep]
        obtain ⟨ih1, ih2⟩ := ih (i + 1) secAt phoneAt false phone
        constructor
        · rw [ih1]
          constructor
          · rintro (h | ⟨k, h1, h2, h3⟩)
            · exact Or.inl h
            · exact Or.inr ⟨k, by omega, by omega, h3⟩
          · rintro (h | ⟨k, h1, h2, h3⟩)
            · exact Or.inl h
            · have hk : k ≠ i := by
                intro he
                rw [he, hsAt] at h3
                simp at h3
              exact Or.inr ⟨k, by omega, by omega, h3⟩
        · rw [ih2]
          constructor
          · rintro (h | ⟨j, h1, h2, h3, h4⟩)
            · exact Or.inl h
            · refine Or.inr ⟨j, by omega, by omega, h3, ?_⟩
              rcases h4 with h5 | ⟨k, hk1, hk2, hk3⟩
              · simp at h5
              · exact Or.inr ⟨k, by omega, by omega, hk3⟩
          · rintro (h | ⟨j, h1, h2, h3, h4⟩)
            · exact Or.inl h
            · rcases h4 with h5 | ⟨k, hk1, hk2, hk3⟩
              · simp at h5
              · have hk : k ≠ i := by
                  intro he
                  rw [he, hsAt] at hk3
                  simp at hk3
                exact Or.inr ⟨j, by omega, by omega, h3,
                  Or.inr ⟨k, by omega, by omega, hk3⟩⟩

end BlueBuzzah

namespace BlueBuzzah

/-- Claim C8: The PRIMARY boot sequence returns FAILED exactly when advertising
failed or no SECONDARY connection was accepted within the startup window;
otherwise it returns SUCCESS_WITH_PHONE exactly when a phone connection was
also accepted within the window (necessarily at or after the SECONDARY's
poll) and SUCCESS_NO_PHONE when it was not; it never returns the plain
SUCCESS variant. -/
theorem primary_boot_result_characterisation (advOk : Bool) (fuel : Nat)
    (secAt phoneAt : Nat → Bool) :
    (primary_boot_sequence advOk fuel secAt phoneAt = BootResult.FAILED ↔
      (advOk = false ∨ ∀ i, i < fuel → secAt i = false)) ∧
    (primary_boot_sequence advOk fuel secAt phoneAt = BootResult.SUCCESS_WITH_PHONE ↔
      (advOk = true ∧ (∃ i, i < fuel ∧ secAt i = true) ∧
       (∃ j, j < fuel ∧ phoneAt j = true ∧ ∃ k, k ≤ j ∧ secAt k = true))) ∧
    (primary_boot_sequence advOk fuel secAt phoneAt = BootResult.SUCCESS_NO_PHONE ↔
      (advOk = true ∧ (∃ i, i < fuel ∧ secAt i = true) ∧
       ¬(∃ j, j < fuel ∧ phoneAt j = true ∧ ∃ k, k ≤ j ∧ secAt k = true))) ∧
    primary_boot_sequence advOk fuel secAt phoneAt ≠ BootResult.SUCCESS := by
  obtain ⟨hs, hp⟩ := primary_boot_poll_spec fuel 0 secAt phoneAt false false
  have hS : (primary_boot_poll fuel 0 secAt phoneAt false false).1 = true ↔
      (∃ i, i < fuel ∧ secAt i = true) := by
    rw [hs]
    constructor
    · rintro (h | ⟨k, _, h2, h3⟩)
      · simp at h
      · exact ⟨k, by omega, h3⟩
    · rintro ⟨k, h1, h2⟩
      exact Or.inr ⟨k, by omega, by omega, h2⟩
  have hP : (primary_boot_poll fuel 0 secAt phoneAt false false).2 = true ↔
      (∃ j, j < fuel ∧ phoneAt j = true ∧ ∃ k, k ≤ j ∧ secAt k = true) := by
    rw [hp]
    constructor
    · rintro (h | ⟨j, _, h2, h3, h4⟩)
      · simp at h
      · refine ⟨j, by omega, h3, ?_⟩
        rcases h4 with h5 | ⟨k, _, hk2, hk3⟩
        · simp at h5
        · exact ⟨k, hk2, hk3⟩
    · rintro ⟨j, h1, h2, k, h3, h4⟩
      exact Or.inr ⟨j, by omega, by omega, h2, Or.inr ⟨k, by omega, h3, h4⟩⟩
  cases advOk
  case false =>
    have hres : primary_boot_sequence false fuel secAt phoneAt = BootResult.FAILED := by
      simp [primary_boot_sequence]
    rw [hres]
    refine ⟨⟨fun _ => Or.inl rfl, fun _ => rfl⟩, ?_, ?_, by simp⟩
    · constructor
      · intro h
        exact BootResult.noConfusion h
      · rintro ⟨h1, _, _⟩
        simp at h1
    · constructor
      · intro h
        exact BootResult.noConfusion h
      · rintro ⟨h1, _, _⟩
        simp at h1
  case true =>
    have hdef : primary_boot_sequence true fuel secAt phoneAt
        = (if !(primary_boot_poll fuel 0 secAt phoneAt false false).1
            then BootResult.FAILED
           else if (primary_boot_poll fuel 0 secAt phoneAt false false).2
            then BootResult.SUCCESS_WITH_PHONE
           else BootResult.SUCCESS_NO_PHONE) := by
      simp [primary_boot_sequence]
    rw [hdef]
    cases h1 : (primary_boot_poll fuel 0 secAt phoneAt false false).1
    case false =>
      have hnsec : ¬ ∃ i, i < fuel ∧ secAt i = true := by
        intro he
        have := hS.mpr he
        rw [h1] at this
        simp at this
      have hall : ∀ i, i < fuel → secAt i = false := by
        intro i hi
        cases hsi : secAt i
        · rfl
        · exact absurd ⟨i, hi, hsi⟩ hnsec
      simp only [Bool.not_false, if_true]
      refine ⟨⟨fun _ => Or.inr hall, fun _ => by trivial⟩, ?_, ?_, by simp⟩
      · constructor
        · intro h
          exact BootResult.noConfusion h
        · rintro ⟨_, hex, _⟩
          exact absurd hex hnsec
      · constructor
        · intro h
          exact BootResult.noConfusion h
        · rintro ⟨_, hex, _⟩
          exact absurd hex hnsec
    case true =>
      have hsec : ∃ i, i < fuel ∧ secAt i = true := hS.mp h1
      simp only [Bool.not_true, Bool.false_eq_true, if_false]
      cases h2 : (primary_boot_poll fuel 0 secAt phoneAt false false).2
      case false =>
        have hnph : ¬ ∃ j, j < fuel ∧ phoneAt j = true ∧
            ∃ k, k ≤ j ∧ secAt k = true := by
          intro he
          have := hP.mpr he
          rw [h2] at this
          simp at this
        simp only [Bool.false_eq_true, if_false]
        refine ⟨?_, ?_, ?_, by simp⟩
        · constructor
          · intro h
            exact BootResult.noConfusion h
          · rintro (h | hall)
            · simp at h
            · obtain ⟨i, hi, hsi⟩ := hsec
              rw [hall i hi] at hsi
              simp at hsi
        · constructor
          · intro h
            exact BootResult.noConfusion h
          · rintro ⟨_, _, hph⟩
            exact absurd hph hnph
        · exact ⟨fun _ => ⟨by trivial, hsec, hnph⟩, fun _ => by trivial⟩
      case true =>
        have hph : ∃ j, j < fuel ∧ phoneAt j = true ∧
            ∃ k, k ≤ j ∧ secAt k = true := hP.mp h2
        simp only [if_true]
        refine ⟨?_, ?_, ?_, by simp⟩
        · constructor
          · intro h
            exact BootResult.noConfusion h
          · rintro (h | hall)
            · simp at h
            · obtain ⟨i, hi, hsi⟩ := hsec
              rw [hall i hi] at hsi
              simp at hsi
        · exact ⟨fun _ => ⟨by trivial, hsec, hph⟩, fun _ => by trivial⟩
        · constructor
          · intro h
            exact BootResult.noConfusion h
          · rintro ⟨_, _, hnph⟩
            exact absurd hph hnph

end BlueBuzzah
